import Mathlib

/-!
Verification development for the substitution-model parameter store of
`src/model.hpp` (class `strom::Model`): the log-ratio reparameterizer
(`logRatioTransform`, `logRatioUntransform`, `logTransformParameters`),
the linkage resolver run by `describeModel`, and the parameter setters.

Floating-point doubles of the source are modelled as real numbers, so the
round-trip and Jacobian identities hold exactly instead of within the
numerical tolerance that the specification allows.

Shared-pointer identity is modelled by natural-number handles: two subsets
reference the same underlying parameter object exactly when the
corresponding handle fields coincide.  The classes `QMatrix` (qmatrix.hpp)
and `ASRV` (asrv.hpp) are not part of the sources; per the specification
they are plain in-memory value holders, so their getters and setters are
modelled as plain field reads and writes.
-/

namespace Strom

/-- Subset data types.  `Model::setSubsetDataTypes` admits only nucleotide and
codon subsets (any other type throws). -/
inductive DataType
  | nucleotide
  | codon
deriving DecidableEq

/-- One `QMatrix` value holder (qmatrix.hpp, not under src/).  Modelled from the
spec: a rate-matrix bundle holds a state-frequency vector, an exchangeability
vector (used by nucleotide subsets) or a scalar omega (used by codon subsets),
each with an independent fixed flag.  The handle fields model the machine
addresses used by the linkage resolver for identity comparison
(the address of the first element of the shared frequency or exchangeability
vector, and the address of the heap-allocated omega scalar). -/
structure QMatrixObj where
  stateFreqs : List ℝ
  exch : List ℝ
  omega : ℝ
  stateFreqsHandle : ℕ
  exchHandle : ℕ
  omegaHandle : ℕ
  fixedStateFreqs : Bool
  fixedExch : Bool
  fixedOmega : Bool

/-- One `ASRV` value holder (asrv.hpp, not under src/).  Modelled from the
spec: rate variance shape, proportion invariable, category count and the
invariable-sites switch, with independent fixed flags.  Handles model the
addresses of the shared rate-variance and pinvar scalars. -/
structure ASRVObj where
  ratevar : ℝ
  pinvar : ℝ
  ratevarHandle : ℕ
  pinvarHandle : ℕ
  numCateg : ℕ
  isInvarModel : Bool
  fixedRateVar : Bool
  fixedPinvar : Bool

/-- The fields of `strom::Model` relevant to the claims (`_num_subsets`,
`_subset_datatypes`, `_qmatrix`, `_asrv`, `_subset_relrates_fixed`,
`_subset_relrates`, `_subset_sizes`, `_num_sites`).  The source maintains the
invariant that every list has length `_num_subsets`. -/
structure Model where
  numSubsets : ℕ
  subsetDatatypes : List DataType
  qmatrix : List QMatrixObj
  asrv : List ASRVObj
  subsetRelratesFixed : Bool
  subsetRelrates : List ℝ
  subsetSizes : List ℕ
  numSites : ℕ

/-- Failure modes of the setters: `configError` models a thrown `XStrom`
(a configuration error whose message names the offending value, modelled by
carrying the value alongside the message text); `assertFail` models a failed
`assert` (a precondition violation that aborts, with no message and no named
value). -/
inductive ModelError
  | configError (msg : String) (offending : ℝ)
  | assertFail

/-- Recognizer for the configuration-error outcome. -/
def isConfigError : Except ModelError Model → Bool
  | .error (.configError _ _) => true
  | _ => false

/-- Index of the first occurrence of `h`, mirroring
`std::distance(v.begin(), std::find(v.begin(), v.end(), h))`. -/
def idxOf (h : ℕ) : List ℕ → ℕ
  | [] => 0
  | a :: t => if a = h then 0 else idxOf h t + 1

/-- Functional update of the element at position `i`, mirroring a mutation of
`v[i]` in the source (no effect out of range; the source asserts the index is
in range). -/
def updateAt : List α → ℕ → (α → α) → List α
  | [], _, _ => []
  | a :: t, 0, f => f a :: t
  | a :: t, n + 1, f => a :: updateAt t n f

/-- `Model::logRatioTransform` (model.hpp lines 790-807).  The source replaces
`param_vect = [x1, ..., xk]` in place by `[log x2 - log x1, ..., log xk - log x1]`
and returns the accumulated `log_jacobian = log x1 + ... + log xk`; we return
the new vector together with the log-Jacobian.  The source asserts that the
input is non-empty; the empty case below is unreachable under that
precondition. -/
noncomputable def logRatioTransform (x : List ℝ) : List ℝ × ℝ :=
  match x with
  | [] => ([], 0)
  | first :: rest =>
    (rest.map (fun e => Real.log e - Real.log first),
     Real.log first + (rest.map Real.log).sum)

/-- `Model::logRatioUntransform` (model.hpp lines 812-832).  The source
replaces `param_vect = [y1, ..., ym]` in place by the vector
`[1, exp y1, ..., exp ym]` with every entry divided by `1 + phi` where
`phi = exp y1 + ... + exp ym`, and returns the sum of the logs of the
resulting entries. -/
noncomputable def logRatioUntransform (y : List ℝ) : List ℝ × ℝ :=
  let rs := y.map Real.exp
  let phi := rs.sum
  let xs := (1 :: rs).map (fun v => v / (1 + phi))
  (xs, (xs.map Real.log).sum)

/-- Group-index assignment of the linkage resolver in `Model::describeModel`.
One entry per subset: `none` when the subset does not participate in the
family (the dash in the report), otherwise the handle together with the fixed
flag of the referencing object.  `u` is the list of handles seen so far
(`unique_*` in the source; membership in `u` coincides with membership in the
`std::set` the source keeps alongside).  A newly seen handle is appended and
receives index `u.length + 1` (the size of `unique_*` after the push); a
handle already seen receives `std::distance(begin, find(...)) + 1`. -/
def famIndicesAux : List (Option (ℕ × Bool)) → List ℕ → List (Option ℕ)
  | [], _ => []
  | none :: t, u => none :: famIndicesAux t u
  | some (h, _) :: t, u =>
    if h ∈ u then some (idxOf h u + 1) :: famIndicesAux t u
    else some (u.length + 1) :: famIndicesAux t (u ++ [h])

/-- Free-parameter list built by the linkage resolver: the positions (subset
indices, counted from `pos`) whose referenced object is seen for the first
time and is not fixed.  Position `i` stands for the shared pointer
`_qmatrix[i]` (or `_asrv[i]`) that the source pushes onto the corresponding
`_*_params` vector. -/
def famFreeAux : List (Option (ℕ × Bool)) → ℕ → List ℕ → List ℕ
  | [], _, _ => []
  | none :: t, pos, u => famFreeAux t (pos + 1) u
  | some (h, b) :: t, pos, u =>
    if h ∈ u then famFreeAux t (pos + 1) u
    else (if b then [] else [pos]) ++ famFreeAux t (pos + 1) (u ++ [h])

/-- Group indices of a family, starting from an empty seen-set. -/
def famIndices (l : List (Option (ℕ × Bool))) : List (Option ℕ) :=
  famIndicesAux l []

/-- Free-parameter list of a family, starting from an empty seen-set. -/
def famFree (l : List (Option (ℕ × Bool))) : List ℕ :=
  famFreeAux l 0 []

/-- State-frequency entries consumed by the resolver: every subset
participates; the key is `&freq[0]`, the address of the first element of the
shared frequency vector (`freq_addr` in the source). -/
def freqEntries (m : Model) : List (Option (ℕ × Bool)) :=
  m.qmatrix.map (fun q => some (q.stateFreqsHandle, q.fixedStateFreqs))

/-- Exchangeability entries: only nucleotide subsets participate; the key is
`&xchg[0]`, the address of the first element of the shared exchangeability
vector. -/
def xchgEntries (m : Model) : List (Option (ℕ × Bool)) :=
  (m.subsetDatatypes.zip m.qmatrix).map
    (fun dq => if dq.1 = DataType.nucleotide
      then some (dq.2.exchHandle, dq.2.fixedExch) else none)

/-- The key the source inserts into `omegaset` is `&omegavalue`, where
`omega_t omegavalue = *pomega;` declares a stack-local copy of the shared
omega scalar (`omega_t` is `double`, per the spec a plain positive scalar).
The address of that local is the same stack slot on every loop iteration, so
every codon subset contributes one and the same key, independent of which
omega object it references.  We model that single reused stack address by the
constant `0`.  Contrast the other four families, which bind references
(`freq_xchg_t & freq = *pfreq;` etc.) and therefore key on the shared object
itself. -/
def omegaLocalAddr : ℕ := 0

/-- Omega entries: only codon subsets participate; the key is the address of
the loop-local copy `omegavalue` (see `omegaLocalAddr`), not the address of
the referenced omega object. -/
def omegaEntries (m : Model) : List (Option (ℕ × Bool)) :=
  (m.subsetDatatypes.zip m.qmatrix).map
    (fun dq => if dq.1 = DataType.codon
      then some (omegaLocalAddr, dq.2.fixedOmega) else none)

/-- Rate-variance entries: every subset participates; the key is `&ratevar`
where `double & ratevar = *pratevar;` binds a reference to the shared
scalar. -/
def ratevarEntries (m : Model) : List (Option (ℕ × Bool)) :=
  m.asrv.map (fun a => some (a.ratevarHandle, a.fixedRateVar))

/-- Pinvar entries: only subsets with the invariable-sites model participate;
the key is the address of the shared pinvar scalar. -/
def pinvarEntries (m : Model) : List (Option (ℕ × Bool)) :=
  m.asrv.map (fun a => if a.isInvarModel
    then some (a.pinvarHandle, a.fixedPinvar) else none)

/-- The linkage output of `Model::describeModel`: per family, the 1-based group
index of each subset (`none` printed as a dash) and the rebuilt free-parameter
list (`_state_freq_params` etc.), given as the positions of the subsets whose
objects were pushed. -/
structure LinkageResult where
  freqIndices : List (Option ℕ)
  xchgIndices : List (Option ℕ)
  omegaIndices : List (Option ℕ)
  ratevarIndices : List (Option ℕ)
  pinvarIndices : List (Option ℕ)
  freqFree : List ℕ
  xchgFree : List ℕ
  omegaFree : List ℕ
  ratevarFree : List ℕ
  pinvarFree : List ℕ

/-- The state mutations `Model::describeModel` performs before and during its
subset loop: `_subset_relrates_fixed = true` when there is exactly one subset,
and `_asrv[i]->fixRateVar(true)` for every subset whose category count is 1.
In the source the rate-variance fix for subset `i` happens at the top of
iteration `i`, before subset `i` is resolved; since the fix touches only
subset `i`'s own `ASRV` object, fixing all subsets up front resolves to the
same groupings and free-parameter lists. -/
def forceFixes (m : Model) : Model :=
  { m with
    subsetRelratesFixed := if m.numSubsets = 1 then true else m.subsetRelratesFixed,
    asrv := m.asrv.map (fun a =>
      if a.numCateg = 1 then { a with fixedRateVar := true } else a) }

/-- `Model::describeModel` (model.hpp lines 163-439), restricted to its
observable effects on the store and the linkage data it computes; the
human-readable string assembly is omitted.  The five `_*_params` vectors are
cleared and rebuilt from scratch, so the result lists below are exactly their
final contents. -/
def describeModel (m : Model) : Model × LinkageResult :=
  let m' := forceFixes m
  (m',
   { freqIndices := famIndices (freqEntries m')
     xchgIndices := famIndices (xchgEntries m')
     omegaIndices := famIndices (omegaEntries m')
     ratevarIndices := famIndices (ratevarEntries m')
     pinvarIndices := famIndices (pinvarEntries m')
     freqFree := famFree (freqEntries m')
     xchgFree := famFree (xchgEntries m')
     omegaFree := famFree (omegaEntries m')
     ratevarFree := famFree (ratevarEntries m')
     pinvarFree := famFree (pinvarEntries m') })

/-- The per-subset data the flattening loop of `logTransformParameters` reads:
datatype, rate-matrix bundle and ASRV bundle, in subset order. -/
def subsetTriples (m : Model) : List (DataType × QMatrixObj × ASRVObj) :=
  m.subsetDatatypes.zip (m.qmatrix.zip m.asrv)

/-- The subset loop of `Model::logTransformParameters` (model.hpp lines
874-903): for each subset append, in order, the transformed exchangeabilities
and frequencies (nucleotide) or `log omega` and the transformed frequencies
(codon), then `log pinvar` when the invariable-sites model is on, then
`log ratevar` when the category count exceeds 1, accumulating every
log-Jacobian contribution. -/
noncomputable def logTransformLoop :
    List (DataType × QMatrixObj × ASRVObj) → List ℝ → ℝ → List ℝ × ℝ
  | [], pv, j => (pv, j)
  | (d, q, a) :: rest, pv, j =>
    let step1 : List ℝ × ℝ :=
      match d with
      | DataType.nucleotide =>
        let tx := logRatioTransform q.exch
        let tf := logRatioTransform q.stateFreqs
        (pv ++ tx.1 ++ tf.1, j + tx.2 + tf.2)
      | DataType.codon =>
        let lw := Real.log q.omega
        let tf := logRatioTransform q.stateFreqs
        (pv ++ [lw] ++ tf.1, j + lw + tf.2)
    let step2 : List ℝ × ℝ :=
      if a.isInvarModel
      then (step1.1 ++ [Real.log a.pinvar], step1.2 + Real.log a.pinvar)
      else step1
    let step3 : List ℝ × ℝ :=
      if 1 < a.numCateg
      then (step2.1 ++ [Real.log a.ratevar], step2.2 + Real.log a.ratevar)
      else step2
    logTransformLoop rest step3.1 step3.2

/-- `Model::logTransformParameters` (model.hpp lines 866-905): when the subset
count exceeds 1, first append the log-ratio-transformed subset relative rates,
then run the subset loop. -/
noncomputable def logTransformParameters (m : Model) (pv : List ℝ) : List ℝ × ℝ :=
  if 1 < m.numSubsets then
    let t := logRatioTransform m.subsetRelrates
    logTransformLoop (subsetTriples m) (pv ++ t.1) t.2
  else
    logTransformLoop (subsetTriples m) pv 0

/-- The flattened segment one subset contributes, written as the specification
states the layout (section 4.3 flattening contract); compared against the
imperative loop in the claim about `logTransformParameters`. -/
noncomputable def specSubsetSegment (t : DataType × QMatrixObj × ASRVObj) : List ℝ :=
  (match t.1 with
   | DataType.nucleotide =>
     (logRatioTransform t.2.1.exch).1 ++ (logRatioTransform t.2.1.stateFreqs).1
   | DataType.codon =>
     Real.log t.2.1.omega :: (logRatioTransform t.2.1.stateFreqs).1)
  ++ (if t.2.2.isInvarModel then [Real.log t.2.2.pinvar] else [])
  ++ (if 1 < t.2.2.numCateg then [Real.log t.2.2.ratevar] else [])

/-- The log-Jacobian contribution of one subset, as the specification states
it. -/
noncomputable def specSubsetLogJacobian (t : DataType × QMatrixObj × ASRVObj) : ℝ :=
  (match t.1 with
   | DataType.nucleotide =>
     (logRatioTransform t.2.1.exch).2 + (logRatioTransform t.2.1.stateFreqs).2
   | DataType.codon =>
     Real.log t.2.1.omega + (logRatioTransform t.2.1.stateFreqs).2)
  + (if t.2.2.isInvarModel then Real.log t.2.2.pinvar else 0)
  + (if 1 < t.2.2.numCateg then Real.log t.2.2.ratevar else 0)

/-- `Model::setSubsetNumCateg` (model.hpp lines 556-562): asserts the subset
index is in range, throws a configuration error naming the supplied value when
the category count is below 1, otherwise installs it. -/
def setSubsetNumCateg (m : Model) (ncateg : ℕ) (subset : ℕ) : Except ModelError Model :=
  if subset < m.numSubsets then
    if ncateg < 1 then
      .error (.configError
        "number of categories used for among-site rate variation must be greater than zero"
        (ncateg : ℝ))
    else
      .ok { m with asrv := updateAt m.asrv subset (fun a => { a with numCateg := ncateg }) }
  else .error .assertFail

/-- `Model::setSubsetRateVar` (model.hpp lines 564-571): asserts the subset
index is in range, throws a configuration error naming the supplied value when
the rate variance is negative, otherwise installs the shared pointer and the
fixed flag. -/
noncomputable def setSubsetRateVar (m : Model) (ratevar : ℝ) (rvHandle : ℕ)
    (subset : ℕ) (fixed : Bool) : Except ModelError Model :=
  if subset < m.numSubsets then
    if ratevar < 0 then
      .error (.configError
        "rate variance must be greater than or equal to zero" ratevar)
    else
      .ok { m with asrv := updateAt m.asrv subset (fun a =>
        { a with ratevar := ratevar, ratevarHandle := rvHandle, fixedRateVar := fixed }) }
  else .error .assertFail

/-- `Model::setSubsetPinvar` (model.hpp lines 573-582): asserts the subset
index is in range, throws a configuration error naming the supplied value when
the proportion of invariable sites is negative or at least one, otherwise
installs the shared pointer and the fixed flag. -/
noncomputable def setSubsetPinvar (m : Model) (pinvar : ℝ) (pvHandle : ℕ)
    (subset : ℕ) (fixed : Bool) : Except ModelError Model :=
  if subset < m.numSubsets then
    if pinvar < 0 then
      .error (.configError
        "proportion of invariable sites must be greater than or equal to zero" pinvar)
    else if 1 ≤ pinvar then
      .error (.configError
        "proportion of invariable sites must be less than one" pinvar)
    else
      .ok { m with asrv := updateAt m.asrv subset (fun a =>
        { a with pinvar := pinvar, pinvarHandle := pvHandle, fixedPinvar := fixed }) }
  else .error .assertFail

/-- `Model::setSubsetOmega` (model.hpp lines 611-618): asserts the subset
index is in range and asserts `*omega > 0.0` (an assertion, not a thrown
configuration error), then installs the shared pointer and the fixed flag when
the subset datatype is codon and does nothing otherwise. -/
noncomputable def setSubsetOmega (m : Model) (omega : ℝ) (omHandle : ℕ)
    (subset : ℕ) (fixed : Bool) : Except ModelError Model :=
  if subset < m.numSubsets then
    if 0 < omega then
      if m.subsetDatatypes.getD subset DataType.nucleotide = DataType.codon then
        .ok { m with qmatrix := updateAt m.qmatrix subset (fun q =>
          { q with omega := omega, omegaHandle := omHandle, fixedOmega := fixed }) }
      else .ok m
    else .error .assertFail
  else .error .assertFail

/-- The equal-exchangeabilities vector installed by
`QMatrix::setEqualExchangeabilities` (qmatrix.hpp, not under src/).  Modelled
from the spec: the sentinel installs an implicit equal vector over the 6
nucleotide exchangeabilities. -/
noncomputable def equalExchangeabilities : List ℝ :=
  List.replicate 6 ((1 : ℝ) / 6)

/-- `Model::setSubsetExchangeabilities` (model.hpp lines 589-599): asserts the
subset index is in range; when the subset datatype is not codon, installs
either the equal vector (first supplied element is the sentinel -1) or the
supplied shared pointer, and the fixed flag; when the datatype is codon, does
nothing at all. -/
noncomputable def setSubsetExchangeabilities (m : Model) (xchg : List ℝ)
    (xHandle : ℕ) (subset : ℕ) (fixed : Bool) : Except ModelError Model :=
  if subset < m.numSubsets then
    if m.subsetDatatypes.getD subset DataType.nucleotide = DataType.codon then
      .ok m
    else
      if xchg.headD 0 = -1 then
        .ok { m with qmatrix := updateAt m.qmatrix subset (fun q =>
          { q with exch := equalExchangeabilities, exchHandle := xHandle,
                   fixedExch := fixed }) }
      else
        .ok { m with qmatrix := updateAt m.qmatrix subset (fun q =>
          { q with exch := xchg, exchHandle := xHandle, fixedExch := fixed }) }
  else .error .assertFail

/-- `Model::setSubsetRelRates` (model.hpp lines 737-745): asserts there is at
least one subset and the supplied vector is non-empty; when the first supplied
element is the sentinel -1, resets all subset relative rates to 1.0, otherwise
installs the supplied vector as given; finally records the fixed flag. -/
noncomputable def setSubsetRelRates (m : Model) (relrates : List ℝ)
    (fixed : Bool) : Except ModelError Model :=
  if 0 < m.numSubsets then
    if 0 < relrates.length then
      if relrates.headD 0 = -1 then
        .ok { m with subsetRelrates := List.replicate m.numSubsets 1,
                     subsetRelratesFixed := fixed }
      else
        .ok { m with subsetRelrates := relrates, subsetRelratesFixed := fixed }
    else .error .assertFail
  else .error .assertFail

/-- A nucleotide rate-matrix bundle used by the concrete examples: equal
frequencies and exchangeabilities, with the given freq and xchg handles,
nothing fixed. -/
noncomputable def nucQ (fh xh : ℕ) : QMatrixObj :=
  { stateFreqs := List.replicate 4 ((1 : ℝ) / 4)
    exch := List.replicate 6 ((1 : ℝ) / 6)
    omega := 1
    stateFreqsHandle := fh
    exchHandle := xh
    omegaHandle := 0
    fixedStateFreqs := false
    fixedExch := false
    fixedOmega := false }

/-- A codon rate-matrix bundle used by the concrete examples: equal codon
frequencies, omega 1, with the given freq and omega handles, nothing fixed. -/
noncomputable def codonQ (fh oh : ℕ) : QMatrixObj :=
  { stateFreqs := List.replicate 61 ((1 : ℝ) / 61)
    exch := []
    omega := 1
    stateFreqsHandle := fh
    exchHandle := 0
    omegaHandle := oh
    fixedStateFreqs := false
    fixedExch := false
    fixedOmega := false }

/-- An ASRV bundle used by the concrete examples: rate variance 1, no
invariable-sites model, with the given handles and category count, nothing
fixed. -/
noncomputable def plainASRV (rvh pvh nc : ℕ) : ASRVObj :=
  { ratevar := 1
    pinvar := 0
    ratevarHandle := rvh
    pinvarHandle := pvh
    numCateg := nc
    isInvarModel := false
    fixedRateVar := false
    fixedPinvar := false }

/-- A store with a single nucleotide subset and one rate category. -/
noncomputable def m1 : Model :=
  { numSubsets := 1
    subsetDatatypes := [DataType.nucleotide]
    qmatrix := [nucQ 100 110]
    asrv := [plainASRV 120 130 1]
    subsetRelratesFixed := false
    subsetRelrates := [1]
    subsetSizes := [20]
    numSites := 20 }

/-- A store with two codon subsets whose omega parameters live in distinct
shared objects (handles 7 and 9), neither fixed. -/
noncomputable def m4 : Model :=
  { numSubsets := 2
    subsetDatatypes := [DataType.codon, DataType.codon]
    qmatrix := [codonQ 41 7, codonQ 42 9]
    asrv := [plainASRV 24 34 4, plainASRV 25 35 4]
    subsetRelratesFixed := false
    subsetRelrates := [1, 1]
    subsetSizes := [30, 30]
    numSites := 60 }

/-- A store with three nucleotide subsets in which subsets 0 and 2 reference
the same state-frequency object (handle 100) and subset 1 a distinct one
(handle 200), nothing fixed. -/
noncomputable def m5 : Model :=
  { numSubsets := 3
    subsetDatatypes := [DataType.nucleotide, DataType.nucleotide, DataType.nucleotide]
    qmatrix := [nucQ 100 11, nucQ 200 12, nucQ 100 13]
    asrv := [plainASRV 21 31 4, plainASRV 22 32 4, plainASRV 23 33 4]
    subsetRelratesFixed := false
    subsetRelrates := [1, 1, 1]
    subsetSizes := [20, 20, 20]
    numSites := 60 }

/-- A store with a single codon subset. -/
noncomputable def mC : Model :=
  { numSubsets := 1
    subsetDatatypes := [DataType.codon]
    qmatrix := [codonQ 50 51]
    asrv := [plainASRV 60 61 4]
    subsetRelratesFixed := false
    subsetRelrates := [1]
    subsetSizes := [30]
    numSites := 30 }

/-- A store with one nucleotide subset (index 0) and one codon subset
(index 1). -/
noncomputable def mNC : Model :=
  { numSubsets := 2
    subsetDatatypes := [DataType.nucleotide, DataType.codon]
    qmatrix := [nucQ 70 71, codonQ 72 73]
    asrv := [plainASRV 80 81 4, plainASRV 82 83 4]
    subsetRelratesFixed := false
    subsetRelrates := [1, 1]
    subsetSizes := [20, 30]
    numSites := 50 }

theorem list_sum_map_div (l : List ℝ) (a : ℝ) :
    (l.map (fun e => e / a)).sum = l.sum / a := by
  induction l with
  | nil => simp
  | cons x t ih => simp [ih, add_div]

theorem logRatioTransform_length (x : List ℝ) :
    (logRatioTransform x).1.length = x.length - 1 := by
  cases x <;> simp [logRatioTransform]

theorem logRatioUntransform_snd (y : List ℝ) :
    (logRatioUntransform y).2 = ((logRatioUntransform y).1.map Real.log).sum := rfl

/-- C1: for every vector of positive values summing to 1, untransform after
transform reproduces the vector exactly (the numerical tolerance of the spec
collapses to equality over the reals), the untransform's returned log-Jacobian
equals the transform's, and both equal the sum of the logs of the
components. -/
theorem logRatio_roundTrip (x : List ℝ) (hpos : ∀ v ∈ x, 0 < v) (hsum : x.sum = 1) :
    (logRatioUntransform (logRatioTransform x).1).1 = x ∧
    (logRatioUntransform (logRatioTransform x).1).2 = (logRatioTransform x).2 ∧
    (logRatioTransform x).2 = (x.map Real.log).sum := by
  cases x with
  | nil => norm_num at hsum
  | cons a t =>
    have ha : 0 < a := hpos a (by simp)
    have hane : a ≠ 0 := ne_of_gt ha
    have hrs : (t.map (fun e => Real.log e - Real.log a)).map Real.exp
        = t.map (fun e => e / a) := by
      rw [List.map_map]
      refine List.map_congr_left ?_
      intro e he
      have hepos : 0 < e := hpos e (List.mem_cons_of_mem _ he)
      simp [Function.comp, Real.exp_sub, Real.exp_log hepos, Real.exp_log ha]
    have htsum : t.sum = 1 - a := by
      have h := hsum
      simp only [List.sum_cons] at h
      linarith
    have hphi : (t.map (fun e => e / a)).sum = (1 - a) / a := by
      rw [list_sum_map_div, htsum]
    have h1phi : 1 + (1 - a) / a = 1 / a := by field_simp
    have hxs : (logRatioUntransform (logRatioTransform (a :: t)).1).1 = a :: t := by
      show ((1 :: (((a :: t).tail.map (fun e => Real.log e - Real.log a)).map Real.exp)).map
        (fun v => v / (1 + ((t.map (fun e => Real.log e - Real.log a)).map Real.exp).sum)))
        = a :: t
      rw [List.tail_cons, hrs, hphi, h1phi]
      simp only [List.map_cons, List.map_map]
      refine List.cons_eq_cons.mpr ⟨by rw [one_div_one_div], ?_⟩
      nth_rewrite 2 [show t = t.map id from (List.map_id t).symm]
      refine List.map_congr_left ?_
      intro e _
      show (e / a) / (1 / a) = e
      rw [div_div_eq_mul_div, div_one, div_mul_cancel₀ e hane]
    refine ⟨hxs, ?_, ?_⟩
    · rw [logRatioUntransform_snd, hxs]
      simp [logRatioTransform, List.map_cons, List.sum_cons]
    · simp [logRatioTransform, List.map_cons, List.sum_cons]

theorem logRatio_roundTrip_witness :
    ((∀ v ∈ [(1 : ℝ) / 2, 1 / 2], 0 < v) ∧ ([(1 : ℝ) / 2, 1 / 2].sum = 1)) ∧
    ((logRatioUntransform (logRatioTransform [(1 : ℝ) / 2, 1 / 2]).1).1
        = [(1 : ℝ) / 2, 1 / 2] ∧
     (logRatioUntransform (logRatioTransform [(1 : ℝ) / 2, 1 / 2]).1).2
        = (logRatioTransform [(1 : ℝ) / 2, 1 / 2]).2 ∧
     (logRatioTransform [(1 : ℝ) / 2, 1 / 2]).2
        = ([(1 : ℝ) / 2, 1 / 2].map Real.log).sum) :=
  ⟨⟨by intro v hv; fin_cases hv <;> norm_num, by norm_num⟩,
   logRatio_roundTrip _ (by intro v hv; fin_cases hv <;> norm_num) (by norm_num)⟩

/-- C2: for a non-empty vector of k positive values, `logRatioTransform`
produces the vector of length k-1 whose i-th entry is
`log (x (i+1)) - log (x 0)`, and returns the sum of the logs of all k
original components. -/
theorem logRatioTransform_spec (x : List ℝ) (hx : x ≠ []) (hpos : ∀ v ∈ x, 0 < v) :
    (logRatioTransform x).1.length = x.length - 1 ∧
    (∀ i v w, x[i + 1]? = some v → x[0]? = some w →
      (logRatioTransform x).1[i]? = some (Real.log v - Real.log w)) ∧
    (logRatioTransform x).2 = (x.map Real.log).sum := by
  cases x with
  | nil => exact absurd rfl hx
  | cons a t =>
    refine ⟨by simp [logRatioTransform], ?_, by simp [logRatioTransform]⟩
    intro i v w hv hw
    have hw' : w = a := by simpa using hw.symm
    have hv' : t[i]? = some v := by simpa using hv
    subst hw'
    simp [logRatioTransform, List.getElem?_map, hv']

theorem logRatioTransform_spec_witness :
    (([(1 : ℝ) / 2, 1 / 4, 1 / 4] ≠ ([] : List ℝ)) ∧
     (∀ v ∈ [(1 : ℝ) / 2, 1 / 4, 1 / 4], 0 < v)) ∧
    ((logRatioTransform [(1 : ℝ) / 2, 1 / 4, 1 / 4]).1.length
        = [(1 : ℝ) / 2, 1 / 4, 1 / 4].length - 1 ∧
     (logRatioTransform [(1 : ℝ) / 2, 1 / 4, 1 / 4]).1[0]?
        = some (Real.log ((1 : ℝ) / 4) - Real.log ((1 : ℝ) / 2)) ∧
     (logRatioTransform [(1 : ℝ) / 2, 1 / 4, 1 / 4]).2
        = ([(1 : ℝ) / 2, 1 / 4, 1 / 4].map Real.log).sum) := by
  have h := logRatioTransform_spec [(1 : ℝ) / 2, 1 / 4, 1 / 4] (by simp)
    (by intro v hv; fin_cases hv <;> norm_num)
  exact ⟨⟨by simp, by intro v hv; fin_cases hv <;> norm_num⟩,
         h.1, h.2.1 0 ((1 : ℝ) / 4) ((1 : ℝ) / 2) rfl rfl, h.2.2⟩

/-- C3: for a non-empty vector y of length k-1, `logRatioUntransform` produces
the k-vector whose head is `1 / (1 + phi)` and whose i+1-st entry is
`exp (y i) / (1 + phi)` where `phi` is the sum of the `exp (y i)`, and returns
the sum of the logs of the reconstructed components. -/
theorem logRatioUntransform_spec (y : List ℝ) (_hy : y ≠ []) :
    (logRatioUntransform y).1.length = y.length + 1 ∧
    (logRatioUntransform y).1[0]? = some (1 / (1 + (y.map Real.exp).sum)) ∧
    (∀ i v, y[i]? = some v →
      (logRatioUntransform y).1[i + 1]? = some (Real.exp v / (1 + (y.map Real.exp).sum))) ∧
    (logRatioUntransform y).2 = ((logRatioUntransform y).1.map Real.log).sum := by
  refine ⟨by simp [logRatioUntransform], by simp [logRatioUntransform, one_div], ?_, rfl⟩
  intro i v hv
  simp [logRatioUntransform, List.getElem?_map, hv]

theorem logRatioUntransform_spec_witness :
    (([(0 : ℝ)] ≠ ([] : List ℝ)) ∧
     (logRatioUntransform [(0 : ℝ)]).1.length = [(0 : ℝ)].length + 1 ∧
     (logRatioUntransform [(0 : ℝ)]).1[0]?
        = some (1 / (1 + ([(0 : ℝ)].map Real.exp).sum)) ∧
     (logRatioUntransform [(0 : ℝ)]).1[1]?
        = some (Real.exp 0 / (1 + ([(0 : ℝ)].map Real.exp).sum)) ∧
     (logRatioUntransform [(0 : ℝ)]).2
        = ((logRatioUntransform [(0 : ℝ)]).1.map Real.log).sum) := by
  have h := logRatioUntransform_spec [(0 : ℝ)] (by simp)
  exact ⟨by simp, h.1, h.2.1, h.2.2.1 0 0 rfl, h.2.2.2⟩

theorem famFreeAux_mem {l : List (Option (ℕ × Bool))} {pos : ℕ} {u : List ℕ} {p : ℕ}
    (hp : p ∈ famFreeAux l pos u) :
    ∃ k h, p = pos + k ∧ l[k]? = some (some (h, false)) := by
  induction l generalizing pos u with
  | nil => simp [famFreeAux] at hp
  | cons e t ih =>
    match e with
    | none =>
      obtain ⟨k, h, hpk, hk⟩ := ih (by simpa [famFreeAux] using hp)
      exact ⟨k + 1, h, by omega, by simpa using hk⟩
    | some (hd, b) =>
      rw [famFreeAux] at hp
      by_cases hmem : hd ∈ u
      · rw [if_pos hmem] at hp
        obtain ⟨k, h, hpk, hk⟩ := ih hp
        exact ⟨k + 1, h, by omega, by simpa using hk⟩
      · rw [if_neg hmem] at hp
        cases b with
        | true =>
          simp only [if_true, List.nil_append] at hp
          obtain ⟨k, h, hpk, hk⟩ := ih hp
          exact ⟨k + 1, h, by omega, by simpa using hk⟩
        | false =>
          simp only [Bool.false_eq_true, if_false, List.singleton_append,
            List.mem_cons] at hp
          rcases hp with rfl | hp2
          · exact ⟨0, hd, by omega, by simp⟩
          · obtain ⟨k, h, hpk, hk⟩ := ih hp2
            exact ⟨k + 1, h, by omega, by simpa using hk⟩

/-- C7: after `describeModel` runs, a store with exactly one subset has its
subset relative rates marked fixed regardless of the previous flag, and every
subset whose category count is 1 has its rate variance marked fixed and
contributes no entry to the rate-variance free-parameter list. -/
theorem describeModel_forcedFixed (m : Model) :
    (m.numSubsets = 1 → ((describeModel m).1).subsetRelratesFixed = true) ∧
    (∀ i a, m.asrv[i]? = some a → a.numCateg = 1 →
      (∃ a', ((describeModel m).1).asrv[i]? = some a' ∧ a'.fixedRateVar = true) ∧
      i ∉ (describeModel m).2.ratevarFree) := by
  constructor
  · intro h1
    simp [describeModel, forceFixes, h1]
  · intro i a hia hnc
    have hentry : (ratevarEntries (forceFixes m))[i]? = some (some (a.ratevarHandle, true)) := by
      simp [ratevarEntries, forceFixes, List.getElem?_map, hia, hnc]
    constructor
    · refine ⟨{ a with fixedRateVar := true }, ?_, rfl⟩
      simp [describeModel, forceFixes, List.getElem?_map, hia, hnc]
    · intro hmem
      have hmem' : i ∈ famFreeAux (ratevarEntries (forceFixes m)) 0 [] := by
        simpa [describeModel, famFree] using hmem
      obtain ⟨k, h, hik, hk⟩ := famFreeAux_mem hmem'
      have hki : k = i := by omega
      subst hki
      rw [hentry] at hk
      simp at hk

theorem describeModel_forcedFixed_witness :
    ((describeModel m1).1).subsetRelratesFixed = true ∧
    (∃ a', ((describeModel m1).1).asrv[0]? = some a' ∧ a'.fixedRateVar = true) ∧
    0 ∉ (describeModel m1).2.ratevarFree :=
  ⟨(describeModel_forcedFixed m1).1 rfl,
   ((describeModel_forcedFixed m1).2 0 (plainASRV 120 130 1) rfl rfl).1,
   ((describeModel_forcedFixed m1).2 0 (plainASRV 120 130 1) rfl rfl).2⟩

/-- C5: in the 3-subset store `m5` where subsets 0 and 2 share one
state-frequency object and subset 1 has a distinct one, none fixed,
`describeModel` reports state-frequency group indices 1, 2, 1 and the rebuilt
state-frequency free-parameter list holds exactly the 2 distinct objects
(those of subsets 0 and 1), with no duplicates. -/
theorem freq_linkage_example :
    (describeModel m5).2.freqIndices = [some 1, some 2, some 1] ∧
    (describeModel m5).2.freqFree = [0, 1] ∧
    (describeModel m5).2.freqFree.length = 2 ∧
    (describeModel m5).2.freqFree.Nodup := by
  refine ⟨rfl, rfl, rfl, ?_⟩
  rw [show (describeModel m5).2.freqFree = [0, 1] from rfl]
  decide

/-- C4 (code bug): in the 2-subset store `m4`, the two codon subsets hold
their omegas in distinct shared objects (handles 7 and 9) and neither is
fixed, yet `describeModel` assigns both subsets omega group index 1 and pushes
only subset 0's object onto the omega free-parameter list, because the key
inserted into `omegaset` is the address of the loop-local copy `omegavalue`
(the same stack slot on every iteration), not the address of the referenced
omega object. -/
theorem omega_linkage_bug :
    m4.qmatrix.map QMatrixObj.omegaHandle = [7, 9] ∧
    m4.qmatrix.map QMatrixObj.fixedOmega = [false, false] ∧
    (describeModel m4).2.omegaIndices = [some 1, some 1] ∧
    (describeModel m4).2.omegaFree = [0] :=
  ⟨rfl, rfl, rfl, rfl⟩

theorem logTransformLoop_eq (l : List (DataType × QMatrixObj × ASRVObj))
    (pv : List ℝ) (j : ℝ) :
    logTransformLoop l pv j
      = (pv ++ (l.map specSubsetSegment).flatten, j + (l.map specSubsetLogJacobian).sum) := by
  induction l generalizing pv j with
  | nil => simp [logTransformLoop]
  | cons t rest ih =>
    obtain ⟨d, q, a⟩ := t
    cases d <;>
      by_cases hinv : a.isInvarModel <;>
        by_cases hnc : 1 < a.numCateg <;>
          simp only [logTransformLoop, hinv, hnc, if_true, if_false,
            Bool.false_eq_true, ih, specSubsetSegment, specSubsetLogJacobian,
            List.map_cons, List.flatten_cons, List.sum_cons, Prod.mk.injEq] <;>
          exact ⟨by simp [List.append_assoc], by ring⟩

/-- C6: `logTransformParameters` appends to the supplied vector exactly the
log-ratio-transformed subset relative rates (only when the subset count
exceeds 1, length subsetCount - 1) followed, subset by subset in index order,
by the segment the spec's flattening contract describes (nucleotide:
transformed exchangeabilities of length 5 then transformed frequencies of
length 3; codon: log omega then transformed frequencies of length 60; then
log pinvar only under the invariable-sites model; then log rate variance only
when the category count exceeds 1), and returns the sum of all the individual
log-Jacobian contributions. -/
theorem logTransformParameters_layout (m : Model) (pv : List ℝ)
    (hrel : m.subsetRelrates.length = m.numSubsets)
    (hnuc : ∀ t ∈ subsetTriples m, t.1 = DataType.nucleotide →
      t.2.1.exch.length = 6 ∧ t.2.1.stateFreqs.length = 4)
    (hcod : ∀ t ∈ subsetTriples m, t.1 = DataType.codon →
      t.2.1.stateFreqs.length = 61) :
    (logTransformParameters m pv).1
      = pv ++ (if 1 < m.numSubsets then (logRatioTransform m.subsetRelrates).1 else [])
          ++ ((subsetTriples m).map specSubsetSegment).flatten ∧
    (logTransformParameters m pv).2
      = (if 1 < m.numSubsets then (logRatioTransform m.subsetRelrates).2 else 0)
          + ((subsetTriples m).map specSubsetLogJacobian).sum ∧
    (1 < m.numSubsets →
      (logRatioTransform m.subsetRelrates).1.length = m.numSubsets - 1) ∧
    (∀ t ∈ subsetTriples m, t.1 = DataType.nucleotide →
      (logRatioTransform t.2.1.exch).1.length = 5 ∧
      (logRatioTransform t.2.1.stateFreqs).1.length = 3) ∧
    (∀ t ∈ subsetTriples m, t.1 = DataType.codon →
      (logRatioTransform t.2.1.stateFreqs).1.length = 60) := by
  refine ⟨?_, ?_, ?_, ?_, ?_⟩
  · by_cases hn : 1 < m.numSubsets <;>
      simp [logTransformParameters, hn, logTransformLoop_eq, List.append_assoc]
  · by_cases hn : 1 < m.numSubsets <;>
      simp [logTransformParameters, hn, logTransformLoop_eq]
  · intro hn
    rw [logRatioTransform_length, hrel]
  · intro t ht hdt
    obtain ⟨hx, hf⟩ := hnuc t ht hdt
    exact ⟨by rw [logRatioTransform_length, hx], by rw [logRatioTransform_length, hf]⟩
  · intro t ht hdt
    rw [logRatioTransform_length, hcod t ht hdt]

theorem logTransformParameters_layout_witness :
    (m1.subsetRelrates.length = m1.numSubsets) ∧
    ((logTransformParameters m1 []).1
      = [] ++ (if 1 < m1.numSubsets then (logRatioTransform m1.subsetRelrates).1 else [])
          ++ ((subsetTriples m1).map specSubsetSegment).flatten ∧
     (logTransformParameters m1 []).2
      = (if 1 < m1.numSubsets then (logRatioTransform m1.subsetRelrates).2 else 0)
          + ((subsetTriples m1).map specSubsetLogJacobian).sum) := by
  have h := logTransformParameters_layout m1 [] rfl
    (by
      intro t ht _
      simp only [subsetTriples, m1, List.zip_cons_cons, List.zip_nil_right,
        List.mem_singleton] at ht
      subst ht
      simp [nucQ])
    (by
      intro t ht hdt
      simp only [subsetTriples, m1, List.zip_cons_cons, List.zip_nil_right,
        List.mem_singleton] at ht
      subst ht
      simp [m1] at hdt)
  exact ⟨rfl, h.1, h.2.1⟩

theorem updateAt_getElem?_self (l : List α) (i : ℕ) (f : α → α) :
    (updateAt l i f)[i]? = (l[i]?).map f := by
  induction l generalizing i with
  | nil => simp [updateAt]
  | cons a t ih =>
    cases i with
    | zero => simp [updateAt]
    | succ n => simpa [updateAt] using ih n

/-- C8 (amended): `setSubsetRateVar`, `setSubsetPinvar` and `setSubsetNumCateg`
validate their ranges and fail with a configuration error carrying the
offending value (rate variance below 0; proportion invariable below 0 or at
least 1; category count below 1), and on success install the supplied value
unmodified; `setSubsetOmega`, however, checks `omega > 0` only through an
assertion, so for omega at most 0 it fails as an assertion (precondition)
failure and not as a configuration error, while for positive omega on a codon
subset it installs the value unmodified. -/
theorem scalar_setters_validation (m : Model) (subset : ℕ) (a0 : ASRVObj)
    (q0 : QMatrixObj) (hs : subset < m.numSubsets)
    (ha0 : m.asrv[subset]? = some a0) (hq0 : m.qmatrix[subset]? = some q0) :
    (∀ (rv : ℝ) (h : ℕ) (fx : Bool), rv < 0 →
      setSubsetRateVar m rv h subset fx
        = .error (.configError "rate variance must be greater than or equal to zero" rv)) ∧
    (∀ (rv : ℝ) (h : ℕ) (fx : Bool), 0 ≤ rv →
      ∃ m', setSubsetRateVar m rv h subset fx = .ok m' ∧
        m'.asrv[subset]? = some { a0 with ratevar := rv, ratevarHandle := h,
                                          fixedRateVar := fx }) ∧
    (∀ (pv : ℝ) (h : ℕ) (fx : Bool), pv < 0 →
      setSubsetPinvar m pv h subset fx
        = .error (.configError
            "proportion of invariable sites must be greater than or equal to zero" pv)) ∧
    (∀ (pv : ℝ) (h : ℕ) (fx : Bool), 0 ≤ pv → 1 ≤ pv →
      setSubsetPinvar m pv h subset fx
        = .error (.configError "proportion of invariable sites must be less than one" pv)) ∧
    (∀ (pv : ℝ) (h : ℕ) (fx : Bool), 0 ≤ pv → pv < 1 →
      ∃ m', setSubsetPinvar m pv h subset fx = .ok m' ∧
        m'.asrv[subset]? = some { a0 with pinvar := pv, pinvarHandle := h,
                                          fixedPinvar := fx }) ∧
    (∀ nc : ℕ, nc < 1 →
      setSubsetNumCateg m nc subset
        = .error (.configError
            "number of categories used for among-site rate variation must be greater than zero"
            (nc : ℝ))) ∧
    (∀ nc : ℕ, 1 ≤ nc →
      ∃ m', setSubsetNumCateg m nc subset = .ok m' ∧
        m'.asrv[subset]? = some { a0 with numCateg := nc }) ∧
    (∀ (om : ℝ) (h : ℕ) (fx : Bool), om ≤ 0 →
      setSubsetOmega m om h subset fx = .error .assertFail ∧
      isConfigError (setSubsetOmega m om h subset fx) = false) ∧
    (∀ (om : ℝ) (h : ℕ) (fx : Bool), 0 < om →
      m.subsetDatatypes.getD subset DataType.nucleotide = DataType.codon →
      ∃ m', setSubsetOmega m om h subset fx = .ok m' ∧
        m'.qmatrix[subset]? = some { q0 with omega := om, omegaHandle := h,
                                             fixedOmega := fx }) := by
  refine ⟨?_, ?_, ?_, ?_, ?_, ?_, ?_, ?_, ?_⟩
  · intro rv h fx hrv
    unfold setSubsetRateVar
    rw [if_pos hs, if_pos hrv]
  · intro rv h fx hrv
    have hres : setSubsetRateVar m rv h subset fx
        = .ok { m with asrv := updateAt m.asrv subset (fun a =>
            { a with ratevar := rv, ratevarHandle := h, fixedRateVar := fx }) } := by
      unfold setSubsetRateVar
      rw [if_pos hs, if_neg (not_lt.2 hrv)]
    exact ⟨_, hres, by simp [updateAt_getElem?_self, ha0]⟩
  · intro pv h fx hpv
    unfold setSubsetPinvar
    rw [if_pos hs, if_pos hpv]
  · intro pv h fx hpv0 hpv1
    unfold setSubsetPinvar
    rw [if_pos hs, if_neg (not_lt.2 hpv0), if_pos hpv1]
  · intro pv h fx hpv0 hpv1
    have hres : setSubsetPinvar m pv h subset fx
        = .ok { m with asrv := updateAt m.asrv subset (fun a =>
            { a with pinvar := pv, pinvarHandle := h, fixedPinvar := fx }) } := by
      unfold setSubsetPinvar
      rw [if_pos hs, if_neg (not_lt.2 hpv0), if_neg (not_le.2 hpv1)]
    exact ⟨_, hres, by simp [updateAt_getElem?_self, ha0]⟩
  · intro nc hnc
    unfold setSubsetNumCateg
    rw [if_pos hs, if_pos hnc]
  · intro nc hnc
    have hres : setSubsetNumCateg m nc subset
        = .ok { m with asrv := updateAt m.asrv subset (fun a =>
            { a with numCateg := nc }) } := by
      unfold setSubsetNumCateg
      rw [if_pos hs, if_neg (Nat.not_lt.2 hnc)]
    exact ⟨_, hres, by simp [updateAt_getElem?_self, ha0]⟩
  · intro om h fx hom
    have hres : setSubsetOmega m om h subset fx = .error .assertFail := by
      unfold setSubsetOmega
      rw [if_pos hs, if_neg (not_lt.2 hom)]
    exact ⟨hres, by rw [hres]; rfl⟩
  · intro om h fx hom hdt
    have hres : setSubsetOmega m om h subset fx
        = .ok { m with qmatrix := updateAt m.qmatrix subset (fun q =>
            { q with omega := om, omegaHandle := h, fixedOmega := fx }) } := by
      unfold setSubsetOmega
      rw [if_pos hs, if_pos hom, if_pos hdt]
    exact ⟨_, hres, by simp [updateAt_getElem?_self, hq0]⟩

theorem scalar_setters_validation_witness :
    (setSubsetRateVar mC (-1) 5 0 true
      = .error (.configError "rate variance must be greater than or equal to zero" (-1))) ∧
    (∃ m', setSubsetRateVar mC 2 5 0 true = .ok m' ∧
      m'.asrv[0]? = some { plainASRV 60 61 4 with ratevar := 2, ratevarHandle := 5,
                                                  fixedRateVar := true }) ∧
    (setSubsetPinvar mC (-1) 6 0 false
      = .error (.configError
          "proportion of invariable sites must be greater than or equal to zero" (-1))) ∧
    (setSubsetPinvar mC 1 6 0 false
      = .error (.configError "proportion of invariable sites must be less than one" 1)) ∧
    (∃ m', setSubsetPinvar mC ((1 : ℝ) / 2) 6 0 false = .ok m' ∧
      m'.asrv[0]? = some { plainASRV 60 61 4 with pinvar := (1 : ℝ) / 2, pinvarHandle := 6,
                                                  fixedPinvar := false }) ∧
    (setSubsetNumCateg mC 0 0
      = .error (.configError
          "number of categories used for among-site rate variation must be greater than zero"
          ((0 : ℕ) : ℝ))) ∧
    (∃ m', setSubsetNumCateg mC 4 0 = .ok m' ∧
      m'.asrv[0]? = some { plainASRV 60 61 4 with numCateg := 4 }) ∧
    (setSubsetOmega mC 0 7 0 false = .error .assertFail ∧
      isConfigError (setSubsetOmega mC 0 7 0 false) = false) ∧
    (∃ m', setSubsetOmega mC 2 7 0 false = .ok m' ∧
      m'.qmatrix[0]? = some { codonQ 50 51 with omega := 2, omegaHandle := 7,
                                                fixedOmega := false }) := by
  have h := scalar_setters_validation mC 0 (plainASRV 60 61 4) (codonQ 50 51)
    (by norm_num [mC]) rfl rfl
  exact ⟨h.1 (-1) 5 true (by norm_num),
         h.2.1 2 5 true (by norm_num),
         h.2.2.1 (-1) 6 false (by norm_num),
         h.2.2.2.1 1 6 false (by norm_num) le_rfl,
         h.2.2.2.2.1 ((1 : ℝ) / 2) 6 false (by norm_num) (by norm_num),
         h.2.2.2.2.2.1 0 (by norm_num),
         h.2.2.2.2.2.2.1 4 (by norm_num),
         h.2.2.2.2.2.2.2.1 0 7 false le_rfl,
         h.2.2.2.2.2.2.2.2 2 7 false (by norm_num) rfl⟩

theorem setSubsetOmega_not_configError :
    setSubsetOmega mC 0 7 0 false = .error ModelError.assertFail ∧
    isConfigError (setSubsetOmega mC 0 7 0 false) = false := by
  have hres : setSubsetOmega mC 0 7 0 false = .error ModelError.assertFail := by
    simp [setSubsetOmega, mC]
  exact ⟨hres, by rw [hres]; rfl⟩

/-- C9: when the first element of the supplied relative-rate vector is the
sentinel -1, `setSubsetRelRates` resets all `numSubsets` relative rates to 1.0
and ignores every remaining supplied value; for any other first element the
supplied vector is installed as given. -/
theorem setSubsetRelRates_sentinel (m : Model) (relrates : List ℝ) (fixed : Bool)
    (hn : 0 < m.numSubsets) (hne : relrates ≠ []) :
    (relrates.headD 0 = -1 →
      setSubsetRelRates m relrates fixed
        = .ok { m with subsetRelrates := List.replicate m.numSubsets 1,
                       subsetRelratesFixed := fixed }) ∧
    (relrates.headD 0 ≠ -1 →
      setSubsetRelRates m relrates fixed
        = .ok { m with subsetRelrates := relrates,
                       subsetRelratesFixed := fixed }) := by
  have hlen : 0 < relrates.length := List.length_pos.mpr hne
  constructor
  · intro hsent
    unfold setSubsetRelRates
    rw [if_pos hn, if_pos hlen, if_pos hsent]
  · intro hsent
    unfold setSubsetRelRates
    rw [if_pos hn, if_pos hlen, if_neg hsent]

theorem setSubsetRelRates_sentinel_witness :
    (setSubsetRelRates m5 [-1, 8] true
      = .ok { m5 with subsetRelrates := List.replicate m5.numSubsets 1,
                      subsetRelratesFixed := true }) ∧
    (setSubsetRelRates m5 [2, 3, 4] false
      = .ok { m5 with subsetRelrates := [2, 3, 4],
                      subsetRelratesFixed := false }) :=
  ⟨(setSubsetRelRates_sentinel m5 [-1, 8] true (by norm_num [m5]) (by simp)).1
     (by norm_num),
   (setSubsetRelRates_sentinel m5 [2, 3, 4] false (by norm_num [m5]) (by simp)).2
     (by norm_num)⟩

/-- C10: on a subset whose datatype is not codon, `setSubsetOmega` (called
within its asserted preconditions: subset index in range, omega positive)
returns the store entirely unchanged and signals no error; symmetrically, on a
codon subset `setSubsetExchangeabilities` returns the store entirely unchanged
and signals no error. -/
theorem mismatched_setters_noop (m : Model) (subset : ℕ)
    (hs : subset < m.numSubsets) :
    (∀ (om : ℝ) (h : ℕ) (fx : Bool), 0 < om →
      m.subsetDatatypes.getD subset DataType.nucleotide ≠ DataType.codon →
      setSubsetOmega m om h subset fx = .ok m) ∧
    (∀ (xchg : List ℝ) (h : ℕ) (fx : Bool),
      m.subsetDatatypes.getD subset DataType.nucleotide = DataType.codon →
      setSubsetExchangeabilities m xchg h subset fx = .ok m) := by
  constructor
  · intro om h fx hom hdt
    unfold setSubsetOmega
    rw [if_pos hs, if_pos hom, if_neg hdt]
  · intro xchg h fx hdt
    unfold setSubsetExchangeabilities
    rw [if_pos hs, if_pos hdt]

theorem mismatched_setters_noop_witness :
    setSubsetOmega mNC 1 5 0 true = .ok mNC ∧
    setSubsetExchangeabilities mNC [2, 2, 2, 2, 2, 2] 6 1 true = .ok mNC :=
  ⟨(mismatched_setters_noop mNC 0 (by norm_num [mNC])).1 1 5 true one_pos
     (by simp [mNC]),
   (mismatched_setters_noop mNC 1 (by norm_num [mNC])).2 [2, 2, 2, 2, 2, 2] 6 true
     rfl⟩

end Strom
